import Mathlib

/-!
Verification development for the native image-upscaling core
(waifu2x.cpp, waifu2x_jni.cpp, anime4k.cpp).

Floats are modelled as exact rationals.  Every arithmetic operation the
claims depend on (multiplication by 255, comparison against the constant
5.0f, clamping, truncation of a nonnegative value to a byte) is exact in
binary32 on the value ranges that occur, except where a comment says
otherwise.  Machine ints are modelled as ℤ (no overflow occurs at the
image sizes representable on the platform) and C unsigned char stores are
modelled explicitly.
-/

namespace MihonUpscale

/-! ## Color pipeline and per-tile write-back (waifu2x.cpp, Waifu2x::process) -/

/-- One input pixel of the packed RGBA image, as seen by the grayscale
detection loop (waifu2x.cpp lines 140-150): the three float channel values
produced by from_pixels, each an integer in [0,255]. -/
structure InPixel where
  r : ℚ
  g : ℚ
  b : ℚ
deriving DecidableEq

/-- Number of pixels with significant color (waifu2x.cpp lines 140-145):
count of pixels with abs(R-G) > 5.0f or abs(R-B) > 5.0f. -/
def colorPixelCount (ps : List InPixel) : ℕ :=
  (ps.filter fun p => decide (|p.r - p.g| > 5) || decide (|p.r - p.b| > 5)).length

/-- The grayscale flag computed by Waifu2x::process (waifu2x.cpp lines
122, 137-158): initially true, cleared when the colorful-pixel count
exceeds w*h/200 (integer division), cleared again when
disable_grayscale_check is set. -/
def isGrayscale (disableCheck : Bool) (ps : List InPixel) (w h : ℕ) : Bool :=
  let flag := true
  let flag := if colorPixelCount ps > w * h / 200 then false else flag
  let flag := if disableCheck then false else flag
  flag

/-- The float constant 0.333333f of waifu2x.cpp line 320, modelled as the
decimal rational.  (The binary32 value of the literal differs from this by
less than 2e-8; no claim in this development depends on its exact value,
only on the same value being broadcast to R, G and B.) -/
def grayCoeff : ℚ := 333333 / 1000000

/-- C++ expression (unsigned char)std::max(0.0f, std::min(255.0f, v))
(waifu2x.cpp lines 327-332): clamp to [0,255] then truncate.  On the
clamped nonnegative range truncation coincides with the floor. -/
def clampByte (v : ℚ) : ℕ := (⌊max 0 (min 255 v)⌋).toNat

/-- C++ expression (unsigned char)v for a float v (waifu2x.cpp line 334,
the alpha store, which has no clamp): the value is truncated toward zero;
when the result does not fit in unsigned char the conversion is undefined
behaviour in C++, which we model as the common lowering (truncate to a
wide integer, store the low byte).  On nonnegative v truncation is the
floor; Int.toNat sends the (undefined) negative case to 0. -/
def ucharWrap (v : ℚ) : ℕ := (⌊v⌋).toNat % 256

/-- The four bytes stored for one destination pixel by the write-back task
(waifu2x.cpp lines 314-334).  Inputs vr vg vb are the model-output channel
values read from the tile (normalized scale), aOpt is the pre-scaled alpha
plane value at the destination pixel when the input has an alpha plane.
Mirrors: r = ptr_r[j]*255 (and g, b); if is_grayscale the arithmetic mean
(r+g+b)*0.333333f replaces all three; each color byte is clamped to
[0,255] and truncated; the alpha byte is (unsigned char)(a*255.0f) with no
clamp, or 255 when there is no alpha plane. -/
def writePixelBytes (isGray : Bool) (vr vg vb : ℚ) (aOpt : Option ℚ) :
    ℕ × ℕ × ℕ × ℕ :=
  let r := vr * 255
  let g := vg * 255
  let b := vb * 255
  let rgb :=
    if isGray then
      let gray := (r + g + b) * grayCoeff
      (clampByte gray, clampByte gray, clampByte gray)
    else
      (clampByte r, clampByte g, clampByte b)
  (rgb.1, rgb.2.1, rgb.2.2,
    match aOpt with
    | some a => ucharWrap (a * 255)
    | none => 255)

/-- One byte quadruple written to the packed RGBA output buffer at
destination coordinates (x, y). -/
structure TileWrite where
  x : ℤ
  y : ℤ
  r : ℕ
  g : ℕ
  b : ℕ
  a : ℕ
deriving DecidableEq

/-- The data one write-back task captures (waifu2x.cpp lines 261-343): the
tile placement, the session scale and prepadding, the output image size,
the inference output tile (three planar channels read by flat index) and
the pre-scaled alpha plane (read by flat index dst_y*target_w + dst_x), or
none when the input has no alpha plane. -/
structure TileJob where
  scale : ℤ
  prepadding : ℤ
  x : ℤ
  y : ℤ
  wTile : ℤ
  hTile : ℤ
  targetW : ℤ
  targetH : ℤ
  outTileW : ℤ
  outTileH : ℤ
  tileB : ℤ → ℚ
  tileG : ℤ → ℚ
  tileR : ℤ → ℚ
  alpha : Option (ℤ → ℚ)

/-- The list of byte stores performed by one write-back task
(waifu2x.cpp lines 262-336), in row-major order.  Mirrors the source:
out_x = x*scale, out_pad = prepadding*scale; both source offsets fall back
to 0 when the observed tile output is smaller than
(w+2p)*scale x (h+2p)*scale; the row loop breaks when dst_y reaches
target_h or src_y reaches the tile height (both conditions are monotone in
the row index, so the break is a takeWhile); copy_w is clamped first to
the destination bound then to the source bound. -/
def writeTile (isGray : Bool) (jb : TileJob) : List TileWrite :=
  let outX := jb.x * jb.scale
  let outY := jb.y * jb.scale
  let outW := jb.wTile * jb.scale
  let outH := jb.hTile * jb.scale
  let outPad := jb.prepadding * jb.scale
  let small := jb.outTileW < outW + 2 * outPad ∨ jb.outTileH < outH + 2 * outPad
  let srcOffX := if small then 0 else outPad
  let srcOffY := if small then 0 else outPad
  let c1 := if outX + outW > jb.targetW then jb.targetW - outX else outW
  let c2 := if srcOffX + c1 > jb.outTileW then jb.outTileW - srcOffX else c1
  let rows := (List.range outH.toNat).takeWhile fun i =>
    decide (outY + (i : ℤ) < jb.targetH) && decide (srcOffY + (i : ℤ) < jb.outTileH)
  rows.flatMap fun i =>
    let dstY := outY + (i : ℤ)
    let srcY := srcOffY + (i : ℤ)
    let rowOff := srcY * jb.outTileW
    (List.range c2.toNat).map fun j =>
      let idx := rowOff + srcOffX + (j : ℤ)
      let aVal := jb.alpha.map fun plane => plane (dstY * jb.targetW + outX + (j : ℤ))
      let px := writePixelBytes isGray (jb.tileR idx) (jb.tileG idx) (jb.tileB idx) aVal
      { x := outX + (j : ℤ), y := dstY, r := px.1, g := px.2.1, b := px.2.2.1,
        a := px.2.2.2 }

/-! ## Progress stores (waifu2x.cpp lines 243-248, 338-342, 374-376)

Within one request with T = xtiles*ytiles tiles, the tile with grid
coordinates (xi, yi) has index k = xi + yi*xtiles.  After its GPU
inference the process thread stores k*99/T + 1; after its write-back the
worker stores (k+1)*99/T; after the final drain the process thread stores
100.  The trace below is the sequence of stored values in the
sequentialization where each write-back completes before the next tile is
submitted (tasks are pushed and waited in FIFO order, and this schedule is
realizable). -/

/-- The two progress values stored for tile index k of a T-tile request:
the post-inference store k*99/T + 1 (line 246) followed by the
post-write-back store (k+1)*99/T (line 340). -/
def tileStores (T k : ℕ) : List ℕ := [k * 99 / T + 1, (k + 1) * 99 / T]

/-- Concatenated stores of the first n tiles of a T-tile request. -/
def storesUpTo (T : ℕ) : ℕ → List ℕ
  | 0 => []
  | n + 1 => storesUpTo T n ++ tileStores T n

/-- The stores of the double tile loop (waifu2x.cpp lines 199-357):
yi-major, xi-minor, tile index xi + yi*xtiles, total xtiles*ytiles. -/
def loopStores (xt yt : ℕ) : List ℕ :=
  (List.range yt).flatMap fun yi =>
    (List.range xt).flatMap fun xi => tileStores (xt * yt) (xi + yi * xt)

/-- The full in-order trace of values stored into the progress atomic by
one request: the per-tile stores followed by the final store of 100
(waifu2x.cpp line 375). -/
def progressTrace (xt yt : ℕ) : List ℕ := loopStores xt yt ++ [100]

/-! ## Bounded write-back FIFO (waifu2x.cpp lines 195-262, 345-372) -/

/-- The back-pressure loop (waifu2x.cpp lines 254-257): while the deque
holds at least 32 tasks, wait for the oldest and pop it from the front. -/
def popWhileFull : List ℕ → List ℕ
  | [] => []
  | x :: t => if 32 ≤ (x :: t).length then popWhileFull t else x :: t

/-- Queue update of one successful tile: run the back-pressure loop, then
push the new task at the back (waifu2x.cpp lines 254-261). -/
def pipelineStep (q : List ℕ) (k : ℕ) : List ℕ := popWhileFull q ++ [k]

/-- The sequence of queue states at the top of each tile iteration and
after the loop.  A tile with flag false models an inference failure
(waifu2x.cpp lines 237-241), which skips the queue entirely via continue.
Pops only shrink the queue, so these states dominate every intermediate
state of the back-pressure loop. -/
def pipelineStatesAux : List Bool → List ℕ → ℕ → List (List ℕ)
  | [], q, _ => [q]
  | ok :: rest, q, n =>
    if ok then q :: pipelineStatesAux rest (pipelineStep q n) (n + 1)
    else q :: pipelineStatesAux rest q n

/-- Queue states of a whole request, starting from the empty deque
(waifu2x.cpp line 197). -/
def pipelineStates (tiles : List Bool) : List (List ℕ) :=
  pipelineStatesAux tiles [] 0

/-- The back-pressure loop, also returning the popped (waited-for) tasks
in order: (popped prefix, remaining queue). -/
def popSplit : List ℕ → List ℕ × List ℕ
  | [] => ([], [])
  | x :: t =>
    if 32 ≤ (x :: t).length then
      let s := popSplit t
      (x :: s.1, s.2)
    else ([], x :: t)

/-- Outcome of one process request, as far as the task lifecycle is
concerned: the returned status, the write-back tasks that had completed
by the time process returned, the tasks still pending at return, and all
tasks that were ever queued. -/
structure LoopResult where
  ret : ℤ
  completed : List ℕ
  pending : List ℕ
  queued : List ℕ
deriving DecidableEq

/-- The tile loop with abort checks (waifu2x.cpp lines 199-380).  Each
tile is (task id, inference succeeded); abortAt k is the value of the
should_abort atomic observed at tile k's check (line 346).  A failed tile
skips push and abort check (continue, line 240).  On abort the function
returns -1; the local deque of std::async futures is then destroyed, and
the destructor of each such future blocks until its task completes, so
every queued task has completed by the time process returns.  On normal
exit the loop is followed by the explicit drain (lines 369-372) and the
function returns 0. -/
def runLoopAux (abortAt : ℕ → Bool) :
    List (ℕ × Bool) → List ℕ → List ℕ → List ℕ → LoopResult
  | [], done, q, queued => ⟨0, done ++ q, [], queued⟩
  | (k, ok) :: rest, done, q, queued =>
    if ok then
      let s := popSplit q
      let q2 := s.2 ++ [k]
      let done2 := done ++ s.1
      if abortAt k then ⟨-1, done2 ++ q2, [], queued ++ [k]⟩
      else runLoopAux abortAt rest done2 q2 (queued ++ [k])
    else runLoopAux abortAt rest done q queued

/-- One whole request of the tile loop, started with empty accumulators. -/
def runLoop (tiles : List (ℕ × Bool)) (abortAt : ℕ → Bool) : LoopResult :=
  runLoopAux abortAt tiles [] [] []

/-! ## Session configuration (waifu2x_jni.cpp, Waifu2x constructor) -/

/-- The session fields the claims depend on.  Defaults as established by
the Waifu2x constructor (waifu2x.cpp lines 17-31) and the in-class
initializers (waifu2x.h lines 39-41). -/
structure Session where
  noise : ℤ
  scale : ℤ
  tilesize : ℕ
  prepadding : ℤ
  tileSleepMs : ℤ
  disableGrayscaleCheck : Bool
deriving DecidableEq

/-- Session state right after new Waifu2x(0): noise 0, scale 2, tilesize
128, prepadding 18, tile_sleep_ms 0, disable_grayscale_check false. -/
def sessionDefault : Session :=
  { noise := 0, scale := 2, tilesize := 128, prepadding := 18,
    tileSleepMs := 0, disableGrayscaleCheck := false }

/-- Session produced by nativeInit, the Waifu2xCunet path
(waifu2x_jni.cpp lines 61-67): disable_grayscale_check is set to true,
noise and scale come from the caller. -/
def nativeInitSession (noise scale : ℤ) : Session :=
  { sessionDefault with
    disableGrayscaleCheck := true
    noise := noise
    scale := scale }

/-- Session produced by nativeInitWaifu2xUpconv7 (waifu2x_jni.cpp lines
109-116): disable_grayscale_check set to true, prepadding 7. -/
def upconv7Session (noise scale : ℤ) : Session :=
  { sessionDefault with
    disableGrayscaleCheck := true
    noise := noise
    scale := scale
    prepadding := 7 }

/-- The switch on noise_level in nativeInitRealCugan (waifu2x_jni.cpp
lines 322-342), default case included. -/
def cuganVariantBase (noise : ℤ) : String :=
  if noise = 0 then "no-denoise"
  else if noise = 1 then "denoise1x"
  else if noise = 2 then "denoise2x"
  else if noise = 3 then "denoise3x"
  else if noise = 4 then "conservative"
  else "no-denoise"

/-- The variant string after the 3x/4x fallback (waifu2x_jni.cpp lines
344-347): promoted to denoise3x when scale_level > 2 and
0 < noise_level < 3. -/
def cuganVariant (noise scale : ℤ) : String :=
  if scale > 2 ∧ 0 < noise ∧ noise < 3 then "denoise3x"
  else cuganVariantBase noise

/-- The .param path built by nativeInitRealCugan (waifu2x_jni.cpp lines
349-350). -/
def cuganParamFile (dir : String) (noise scale : ℤ) : String :=
  dir ++ "/up" ++ toString scale ++ "x-" ++ cuganVariant noise scale ++ ".param"

/-- The .bin path built by nativeInitRealCugan (waifu2x_jni.cpp lines
351-352). -/
def cuganBinFile (dir : String) (noise scale : ℤ) : String :=
  dir ++ "/up" ++ toString scale ++ "x-" ++ cuganVariant noise scale ++ ".bin"

/-- The prepadding set by nativeInitRealCugan (waifu2x_jni.cpp lines
365-370) on top of the constructor default of 18: 18 at scale 2, 14 at
scale 3, 19 at scale 4, otherwise left at the default. -/
def cuganPrepadding (scale : ℤ) : ℤ :=
  if scale = 2 then 18
  else if scale = 3 then 14
  else if scale = 4 then 19
  else sessionDefault.prepadding

/-- Session produced by nativeInitRealCugan (waifu2x_jni.cpp lines
354-370). -/
def cuganSession (noise scale tileSleep : ℤ) : Session :=
  { sessionDefault with
    noise := noise
    scale := scale
    tileSleepMs := tileSleep
    prepadding := cuganPrepadding scale }

/-- The noise→variant mapping exactly as the specification states it
(spec section 4.1): variant from noise in 0..4 by the table, promoted to
denoise3x when scale > 2 and noise is 1 or 2.  Kept separate from the
source-derived cuganVariant so the two can be compared. -/
def cuganVariantSpec (noise scale : ℤ) : String :=
  if scale > 2 ∧ (noise = 1 ∨ noise = 2) then "denoise3x"
  else if noise = 0 then "no-denoise"
  else if noise = 1 then "denoise1x"
  else if noise = 2 then "denoise2x"
  else if noise = 3 then "denoise3x"
  else "conservative"

/-! ## The JNI process entry (waifu2x_jni.cpp, nativeProcess) -/

/-- The Android bitmap pixel format as far as nativeProcess checks it
(waifu2x_jni.cpp line 147). -/
inductive AndroidFormat where
  | rgba8888
  | other
deriving DecidableEq

/-- What a call to nativeProcess produced: whether the original input
bitmap object was returned unchanged, and the byte stores performed on
any output buffer during the call. -/
structure JniOutcome where
  returnedOriginal : Bool
  writes : List TileWrite
deriving DecidableEq

/-- nativeProcess (waifu2x_jni.cpp lines 125-214): returns the original
bitmap with no output writes when no model is loaded (line 141) or when
the pixel format is not RGBA_8888 (line 147).  Otherwise it runs
Waifu2x::process, abstracted here by its return code ret and the write
set ws it performed; the original bitmap is returned iff ret is nonzero
(line 208). -/
def nativeProcess (sess : Option Session) (fmt : AndroidFormat) (ret : ℤ)
    (ws : List TileWrite) : JniOutcome :=
  match sess with
  | none => ⟨true, []⟩
  | some _ =>
    if fmt ≠ AndroidFormat.rgba8888 then ⟨true, []⟩
    else ⟨decide (ret ≠ 0), ws⟩

/-! ## Anime4K shader chain (anime4k.cpp) -/

/-- One parsed shader pass (anime4k.h lines 26-33, minus the GL program
handle): save target, ordered bind targets, the two scale factors and the
accumulated fragment body. -/
structure A4KPass where
  saveTarget : String
  bindTargets : List String
  scaleX : ℚ
  scaleY : ℚ
  desc : String
  fragmentBody : String
deriving DecidableEq

/-- The pass state before any line is read (anime4k.cpp lines 132-137):
scales 1.0, empty strings and binding list. -/
def passInit : A4KPass :=
  { saveTarget := "", bindTargets := [], scaleX := 1, scaleY := 1,
    desc := "", fragmentBody := "" }

/-- Processing of one source line of a shader (anime4k.cpp lines
139-152).  line.find(s) == 0 is the startsWith test; the WIDTH and HEIGHT
directives set the scale to 2.0 when the line also contains an asterisk;
non-directive lines are appended to the fragment body with a newline. -/
def parsePassStep (p : A4KPass) (line : String) : A4KPass :=
  let p := if line.startsWith "//!DESC" then { p with desc := line.drop 8 } else p
  let p :=
    if line.startsWith "//!BIND" then
      { p with bindTargets := p.bindTargets ++ [line.drop 8] }
    else p
  let p := if line.startsWith "//!SAVE" then { p with saveTarget := line.drop 8 } else p
  let p :=
    if line.startsWith "//!WIDTH" && line.contains '*' then { p with scaleX := 2 }
    else p
  let p :=
    if line.startsWith "//!HEIGHT" && line.contains '*' then { p with scaleY := 2 }
    else p
  if !line.startsWith "//!" then
    { p with fragmentBody := p.fragmentBody ++ line ++ "\n" }
  else p

/-- Parsing one whole shader source, given as its list of lines (the
std::getline loop of anime4k.cpp lines 139-152). -/
def parsePass (lines : List String) : A4KPass := lines.foldl parsePassStep passInit

/-- Anime4K::load (anime4k.cpp lines 123-174): one pass per shader
source, in order. -/
def a4kLoad (shaders : List (List String)) : List A4KPass := shaders.map parsePass

/-- The output size computed by Anime4K::process (anime4k.cpp lines
211-242): starting from the input size, each pass sets
next_w = curr_w * scale_x where curr_w is an int and scale_x a float, so
the product is truncated back to int each pass.  On the integer values
that occur the truncation is the floor and the int→float conversions are
exact. -/
def a4kProcessSize (passes : List A4KPass) (w h : ℤ) : ℤ × ℤ :=
  passes.foldl
    (fun c p => (⌊(c.1 : ℚ) * p.scaleX⌋, ⌊(c.2 : ℚ) * p.scaleY⌋)) (w, h)

/-- Anime4K::get_output_size (anime4k.cpp lines 250-258): the size is
accumulated in float and truncated to int once at the end. -/
def a4kGetOutputSize (passes : List A4KPass) (w h : ℤ) : ℤ × ℤ :=
  let c := passes.foldl
    (fun (c : ℚ × ℚ) p => (c.1 * p.scaleX, c.2 * p.scaleY)) ((w : ℚ), (h : ℚ))
  (⌊c.1⌋, ⌊c.2⌋)

/-! ## Concrete inputs used to exercise the write-back path -/

/-- A concrete write-back task for the single 1x1 tile of a 1x1 image at
scale 2 with the Real-CUGAN 2x prepadding of 18: the model output tile
has the full expected size 74x74, all channels constant 1/2, and the
input has no alpha plane. -/
def jbGray : TileJob :=
  { scale := 2
    prepadding := 18
    x := 0
    y := 0
    wTile := 1
    hTile := 1
    targetW := 2
    targetH := 2
    outTileW := 74
    outTileH := 74
    tileB := fun _ => 1 / 2
    tileG := fun _ => 1 / 2
    tileR := fun _ => 1 / 2
    alpha := none }

/-- The same task for an input with an alpha plane whose pre-scaled value
is 100 everywhere (a uniformly semi-transparent input: from_pixels yields
alpha floats of 100, and resizing the constant plane keeps it 100). -/
def jbAlpha : TileJob := { jbGray with alpha := some fun _ => 100 }

/-! ## Theorems -/

/-- C6: while no model is loaded (the session pointer is null), and
likewise when the input pixel format is not packed RGBA8, nativeProcess
returns the original input bitmap and performs no write to any output
buffer. -/
theorem process_noop_uninitialized (sess : Option Session) (fmt : AndroidFormat)
    (ret : ℤ) (ws : List TileWrite)
    (h : sess = none ∨ fmt ≠ AndroidFormat.rgba8888) :
    nativeProcess sess fmt ret ws = ⟨true, []⟩ := by
  rcases h with h | h
  · subst h; rfl
  · cases sess with
    | none => rfl
    | some s => simp [nativeProcess, h]

/-- Witness for C6 at the concrete input (no session, RGBA8 format). -/
theorem process_noop_uninitialized_witness :
    nativeProcess none AndroidFormat.rgba8888 0 [] = ⟨true, []⟩ :=
  process_noop_uninitialized none AndroidFormat.rgba8888 0 [] (Or.inl rfl)

/-- C5: for noise in 0..4, Real-CUGAN initialization resolves the weight
files to up-scale-x-variant .param and .bin names with the variant mapped
from the noise level by the table of the specification, promoted to
denoise3x when scale > 2 and noise is 1 or 2; and it sets prepadding 18
at scale 2, 14 at scale 3, 19 at scale 4. -/
theorem realcugan_resolution (dir : String) (noise scale ms : ℤ)
    (h0 : 0 ≤ noise) (h4 : noise ≤ 4) :
    cuganParamFile dir noise scale =
      dir ++ "/up" ++ toString scale ++ "x-" ++ cuganVariantSpec noise scale ++ ".param" ∧
    cuganBinFile dir noise scale =
      dir ++ "/up" ++ toString scale ++ "x-" ++ cuganVariantSpec noise scale ++ ".bin" ∧
    (scale = 2 → (cuganSession noise scale ms).prepadding = 18) ∧
    (scale = 3 → (cuganSession noise scale ms).prepadding = 14) ∧
    (scale = 4 → (cuganSession noise scale ms).prepadding = 19) := by
  have hv : cuganVariant noise scale = cuganVariantSpec noise scale := by
    unfold cuganVariant cuganVariantSpec cuganVariantBase
    interval_cases noise <;> by_cases hs : scale > 2 <;> simp [hs]
  refine ⟨?_, ?_, ?_, ?_, ?_⟩
  · unfold cuganParamFile; rw [hv]
  · unfold cuganBinFile; rw [hv]
  · intro h2; simp [cuganSession, cuganPrepadding, h2]
  · intro h3; simp [cuganSession, cuganPrepadding, h3]
  · intro h4'; simp [cuganSession, cuganPrepadding, h4']

/-- Witness for C5 at the concrete input dir "m", noise 1, scale 3. -/
theorem realcugan_resolution_witness :
    cuganParamFile "m" 1 3 =
      "m" ++ "/up" ++ toString (3 : ℤ) ++ "x-" ++ cuganVariantSpec 1 3 ++ ".param" ∧
    cuganBinFile "m" 1 3 =
      "m" ++ "/up" ++ toString (3 : ℤ) ++ "x-" ++ cuganVariantSpec 1 3 ++ ".bin" ∧
    ((3 : ℤ) = 2 → (cuganSession 1 3 0).prepadding = 18) ∧
    ((3 : ℤ) = 3 → (cuganSession 1 3 0).prepadding = 14) ∧
    ((3 : ℤ) = 4 → (cuganSession 1 3 0).prepadding = 19) :=
  realcugan_resolution "m" 1 3 0 (by norm_num) (by norm_num)

/-- C9: the Waifu2xCunet and UpConv7 init paths set
disable_grayscale_check on the new session, so process computes a false
grayscale flag for every input and the write-back never applies the
grayscale collapse (its writes coincide with the non-collapsed writes). -/
theorem cunet_upconv7_no_gray_collapse (noise scale : ℤ) (ps : List InPixel)
    (w h : ℕ) (jb : TileJob) :
    (nativeInitSession noise scale).disableGrayscaleCheck = true ∧
    (upconv7Session noise scale).disableGrayscaleCheck = true ∧
    isGrayscale (nativeInitSession noise scale).disableGrayscaleCheck ps w h = false ∧
    isGrayscale (upconv7Session noise scale).disableGrayscaleCheck ps w h = false ∧
    writeTile (isGrayscale (nativeInitSession noise scale).disableGrayscaleCheck ps w h) jb
      = writeTile false jb := by
  have hflag : ∀ ps' (w' h' : ℕ), isGrayscale true ps' w' h' = false := by
    intro ps' w' h'
    simp [isGrayscale]
  refine ⟨rfl, rfl, hflag ps w h, hflag ps w h, ?_⟩
  rw [show (nativeInitSession noise scale).disableGrayscaleCheck = true from rfl,
    hflag ps w h]

/-- Parsing one line either keeps the x-scale or sets it to 2. -/
theorem parsePassStep_scaleX (p : A4KPass) (line : String) :
    (parsePassStep p line).scaleX = p.scaleX ∨ (parsePassStep p line).scaleX = 2 := by
  unfold parsePassStep
  split_ifs <;> simp

/-- Parsing one line either keeps the y-scale or sets it to 2. -/
theorem parsePassStep_scaleY (p : A4KPass) (line : String) :
    (parsePassStep p line).scaleY = p.scaleY ∨ (parsePassStep p line).scaleY = 2 := by
  unfold parsePassStep
  split_ifs <;> simp

/-- Folding the parser preserves the x-scale invariant 1-or-2. -/
theorem parse_fold_scaleX : ∀ (lines : List String) (p : A4KPass),
    p.scaleX = 1 ∨ p.scaleX = 2 →
    (lines.foldl parsePassStep p).scaleX = 1 ∨ (lines.foldl parsePassStep p).scaleX = 2 := by
  intro lines
  induction lines with
  | nil => exact fun p hp => hp
  | cons l rest ih =>
    intro p hp
    rw [List.foldl_cons]
    apply ih
    rcases parsePassStep_scaleX p l with h | h
    · rw [h]; exact hp
    · exact Or.inr h

/-- Folding the parser preserves the y-scale invariant 1-or-2. -/
theorem parse_fold_scaleY : ∀ (lines : List String) (p : A4KPass),
    p.scaleY = 1 ∨ p.scaleY = 2 →
    (lines.foldl parsePassStep p).scaleY = 1 ∨ (lines.foldl parsePassStep p).scaleY = 2 := by
  intro lines
  induction lines with
  | nil => exact fun p hp => hp
  | cons l rest ih =>
    intro p hp
    rw [List.foldl_cons]
    apply ih
    rcases parsePassStep_scaleY p l with h | h
    · rw [h]; exact hp
    · exact Or.inr h

/-- Every pass produced by load has x-scale 1 or 2. -/
theorem a4kLoad_scaleX (shaders : List (List String)) (p : A4KPass)
    (hp : p ∈ a4kLoad shaders) : p.scaleX = 1 ∨ p.scaleX = 2 := by
  rcases List.mem_map.mp hp with ⟨lines, _, rfl⟩
  exact parse_fold_scaleX lines passInit (Or.inl rfl)

/-- Every pass produced by load has y-scale 1 or 2. -/
theorem a4kLoad_scaleY (shaders : List (List String)) (p : A4KPass)
    (hp : p ∈ a4kLoad shaders) : p.scaleY = 1 ∨ p.scaleY = 2 := by
  rcases List.mem_map.mp hp with ⟨lines, _, rfl⟩
  exact parse_fold_scaleY lines passInit (Or.inl rfl)

/-- The per-pass truncating accumulation of Anime4K::process computes the
input size times the product of the scales, whenever all scales are 1 or
2 (truncation never loses anything on integer intermediate values). -/
theorem a4kProcessSize_eq : ∀ (passes : List A4KPass),
    (∀ p ∈ passes, p.scaleX = 1 ∨ p.scaleX = 2) →
    (∀ p ∈ passes, p.scaleY = 1 ∨ p.scaleY = 2) →
    ∀ w h : ℤ,
      ((a4kProcessSize passes w h).1 : ℚ) = (w : ℚ) * (passes.map A4KPass.scaleX).prod ∧
      ((a4kProcessSize passes w h).2 : ℚ) = (h : ℚ) * (passes.map A4KPass.scaleY).prod := by
  intro passes
  induction passes with
  | nil => intro _ _ w h; simp [a4kProcessSize]
  | cons p ps ih =>
    intro hX hY w h
    have hpX := hX p (List.mem_cons_self p ps)
    have hpY := hY p (List.mem_cons_self p ps)
    have hstep : a4kProcessSize (p :: ps) w h
        = a4kProcessSize ps ⌊(w : ℚ) * p.scaleX⌋ ⌊(h : ℚ) * p.scaleY⌋ := rfl
    obtain ⟨e1, e2⟩ := ih (fun q hq => hX q (List.mem_cons_of_mem p hq))
      (fun q hq => hY q (List.mem_cons_of_mem p hq))
      ⌊(w : ℚ) * p.scaleX⌋ ⌊(h : ℚ) * p.scaleY⌋
    have hfl : ∀ (z : ℤ) (s : ℚ), s = 1 ∨ s = 2 → (⌊(z : ℚ) * s⌋ : ℚ) = (z : ℚ) * s := by
      intro z s hs
      rcases hs with hs | hs <;> subst hs
      · rw [mul_one, Int.floor_intCast]
      · rw [show ((z : ℚ) * 2) = ((z * 2 : ℤ) : ℚ) by push_cast; ring,
          Int.floor_intCast]
    rw [hstep]
    constructor
    · rw [e1, List.map_cons, List.prod_cons, hfl w p.scaleX hpX]; ring
    · rw [e2, List.map_cons, List.prod_cons, hfl h p.scaleY hpY]; ring

/-- C7: for every loaded pass list and input size, the dimensions a
process run produces equal the input dimensions times the product of the
per-pass x-scales (resp. y-scales), in order. -/
theorem shaderchain_output_dims (shaders : List (List String)) (w h : ℤ) :
    ((a4kProcessSize (a4kLoad shaders) w h).1 : ℚ)
      = (w : ℚ) * ((a4kLoad shaders).map A4KPass.scaleX).prod ∧
    ((a4kProcessSize (a4kLoad shaders) w h).2 : ℚ)
      = (h : ℚ) * ((a4kLoad shaders).map A4KPass.scaleY).prod :=
  a4kProcessSize_eq (a4kLoad shaders) (a4kLoad_scaleX shaders)
    (a4kLoad_scaleY shaders) w h

/-- The float accumulation of get_output_size is the product of the
scales applied to the start value. -/
theorem a4kFloatFold : ∀ (passes : List A4KPass) (a b : ℚ),
    passes.foldl (fun (c : ℚ × ℚ) p => (c.1 * p.scaleX, c.2 * p.scaleY)) (a, b)
      = (a * (passes.map A4KPass.scaleX).prod, b * (passes.map A4KPass.scaleY).prod) := by
  intro passes
  induction passes with
  | nil => intro a b; simp
  | cons p ps ih =>
    intro a b
    rw [List.foldl_cons]
    dsimp only
    rw [ih, List.map_cons, List.prod_cons, List.map_cons, List.prod_cons,
      mul_assoc, mul_assoc]

/-- C10: get_output_size agrees with the dimensions a process run
produces, for every loaded pass list and every input size. -/
theorem get_output_size_matches_process (shaders : List (List String)) (w h : ℤ) :
    a4kGetOutputSize (a4kLoad shaders) w h = a4kProcessSize (a4kLoad shaders) w h := by
  obtain ⟨e1, e2⟩ := a4kProcessSize_eq (a4kLoad shaders) (a4kLoad_scaleX shaders)
    (a4kLoad_scaleY shaders) w h
  unfold a4kGetOutputSize
  rw [a4kFloatFold]
  refine Prod.ext ?_ ?_
  · show ⌊(w : ℚ) * ((a4kLoad shaders).map A4KPass.scaleX).prod⌋
      = (a4kProcessSize (a4kLoad shaders) w h).1
    rw [← e1, Int.floor_intCast]
  · show ⌊(h : ℚ) * ((a4kLoad shaders).map A4KPass.scaleY).prod⌋
      = (a4kProcessSize (a4kLoad shaders) w h).2
    rw [← e2, Int.floor_intCast]

/-- The back-pressure loop leaves min(len, 31) tasks in the queue. -/
theorem popWhileFull_length (q : List ℕ) :
    (popWhileFull q).length = min q.length 31 := by
  induction q with
  | nil => simp [popWhileFull]
  | cons x t ih =>
    unfold popWhileFull
    by_cases h : 32 ≤ (x :: t).length
    · rw [if_pos h, ih]
      simp only [List.length_cons] at h ⊢
      omega
    · rw [if_neg h]
      simp only [List.length_cons] at h ⊢
      omega

/-- Below capacity the back-pressure loop does nothing. -/
theorem popWhileFull_small (q : List ℕ) (h : q.length < 32) :
    popWhileFull q = q := by
  cases q with
  | nil => rfl
  | cons x t =>
    unfold popWhileFull
    rw [if_neg (by omega)]

/-- At capacity exactly the oldest task is waited for and popped. -/
theorem popWhileFull_full (q : List ℕ) (h : q.length = 32) :
    popWhileFull q = q.tail := by
  cases q with
  | nil => simp at h
  | cons x t =>
    unfold popWhileFull
    rw [if_pos (by omega)]
    simp only [List.length_cons] at h
    exact popWhileFull_small t (by omega)

/-- Every queue state of the tile loop stays within the capacity bound,
provided the starting queue does. -/
theorem pipelineStatesAux_bound : ∀ (tiles : List Bool) (q : List ℕ) (n : ℕ),
    q.length ≤ 32 → ∀ s ∈ pipelineStatesAux tiles q n, s.length ≤ 32 := by
  intro tiles
  induction tiles with
  | nil =>
    intro q n hq s hs
    simp only [pipelineStatesAux, List.mem_singleton] at hs
    exact hs ▸ hq
  | cons ok rest ih =>
    intro q n hq s hs
    have hstep : (pipelineStep q n).length ≤ 32 := by
      unfold pipelineStep
      rw [List.length_append, popWhileFull_length]
      simp
    cases ok with
    | false =>
      have hs' : s ∈ q :: pipelineStatesAux rest q n := hs
      rcases List.mem_cons.mp hs' with hs2 | hs2
      · exact hs2 ▸ hq
      · exact ih q n hq s hs2
    | true =>
      have hs' : s ∈ q :: pipelineStatesAux rest (pipelineStep q n) (n + 1) := hs
      rcases List.mem_cons.mp hs' with hs2 | hs2
      · exact hs2 ▸ hq
      · exact ih (pipelineStep q n) (n + 1) hstep s hs2

/-- C8: throughout the tile loop the write-back FIFO never holds more
than 32 entries, and a step taken at a full queue of 32 first pops the
oldest task and only then pushes the new one. -/
theorem fifo_bounded (tiles : List Bool) (s : List ℕ)
    (hs : s ∈ pipelineStates tiles) (q : List ℕ) (k : ℕ)
    (hq : q.length = 32) :
    s.length ≤ 32 ∧ pipelineStep q k = q.tail ++ [k] := by
  constructor
  · exact pipelineStatesAux_bound tiles [] 0 (by simp) s hs
  · unfold pipelineStep
    rw [popWhileFull_full q hq]

/-- Witness for C8 at a one-tile request with an empty observed state and
a full 32-entry queue. -/
theorem fifo_bounded_witness :
    ([] : List ℕ).length ≤ 32 ∧
    pipelineStep (List.range 32) 7 = (List.range 32).tail ++ [7] :=
  fifo_bounded [true] [] (by decide) (List.range 32) 7 (by simp)

/-- The two halves returned by popSplit reassemble the original queue. -/
theorem popSplit_append : ∀ q : List ℕ, (popSplit q).1 ++ (popSplit q).2 = q := by
  intro q
  induction q with
  | nil => rfl
  | cons x t ih =>
    unfold popSplit
    by_cases h : 32 ≤ (x :: t).length
    · rw [if_pos h]
      simpa using ih
    · rw [if_neg h]
      rfl

/-- Behaviour of the tile loop for any accumulator state: the pending
list is empty on return, completed tasks are exactly the queued ones when
the invariant done ++ queue = queued holds on entry, and an abort
observed at any successful tile forces the -1 return. -/
theorem runLoopAux_spec (abortAt : ℕ → Bool) : ∀ (tiles : List (ℕ × Bool))
    (done q queued : List ℕ), done ++ q = queued →
    (runLoopAux abortAt tiles done q queued).pending = [] ∧
    (runLoopAux abortAt tiles done q queued).completed
      = (runLoopAux abortAt tiles done q queued).queued ∧
    ((∃ p ∈ tiles, p.2 = true ∧ abortAt p.1 = true) →
      (runLoopAux abortAt tiles done q queued).ret = -1) := by
  intro tiles
  induction tiles with
  | nil =>
    intro done q queued hinv
    refine ⟨rfl, by simpa using hinv, ?_⟩
    rintro ⟨p, hp, -⟩
    simp at hp
  | cons t rest ih =>
    obtain ⟨k, ok⟩ := t
    intro done q queued hinv
    cases ok with
    | false =>
      have hred : runLoopAux abortAt ((k, false) :: rest) done q queued
          = runLoopAux abortAt rest done q queued := rfl
      obtain ⟨ih1, ih2, ih3⟩ := ih done q queued hinv
      rw [hred]
      refine ⟨ih1, ih2, ?_⟩
      rintro ⟨p, hp, hp2, hp3⟩
      rcases List.mem_cons.mp hp with hp | hp
      · rw [hp] at hp2; simp at hp2
      · exact ih3 ⟨p, hp, hp2, hp3⟩
    | true =>
      have hsplit : runLoopAux abortAt ((k, true) :: rest) done q queued
          = if abortAt k = true
            then ⟨-1, (done ++ (popSplit q).1) ++ ((popSplit q).2 ++ [k]), [],
                queued ++ [k]⟩
            else runLoopAux abortAt rest (done ++ (popSplit q).1)
                ((popSplit q).2 ++ [k]) (queued ++ [k]) := rfl
      by_cases hab : abortAt k = true
      · have hred : runLoopAux abortAt ((k, true) :: rest) done q queued
            = ⟨-1, (done ++ (popSplit q).1) ++ ((popSplit q).2 ++ [k]), [],
                queued ++ [k]⟩ := by
          rw [hsplit, if_pos hab]
        rw [hred]
        refine ⟨rfl, ?_, fun _ => rfl⟩
        show (done ++ (popSplit q).1) ++ ((popSplit q).2 ++ [k]) = queued ++ [k]
        rw [← hinv]
        rw [List.append_assoc done (popSplit q).1 ((popSplit q).2 ++ [k]),
          ← List.append_assoc (popSplit q).1 (popSplit q).2 [k],
          popSplit_append, ← List.append_assoc]
      · have hred : runLoopAux abortAt ((k, true) :: rest) done q queued
            = runLoopAux abortAt rest (done ++ (popSplit q).1)
                ((popSplit q).2 ++ [k]) (queued ++ [k]) := by
          rw [hsplit, if_neg hab]
        have hinv2 : (done ++ (popSplit q).1) ++ ((popSplit q).2 ++ [k])
            = queued ++ [k] := by
          rw [← hinv, List.append_assoc done (popSplit q).1 ((popSplit q).2 ++ [k]),
            ← List.append_assoc (popSplit q).1 (popSplit q).2 [k],
            popSplit_append, ← List.append_assoc]
        obtain ⟨ih1, ih2, ih3⟩ := ih (done ++ (popSplit q).1)
          ((popSplit q).2 ++ [k]) (queued ++ [k]) hinv2
        rw [hred]
        refine ⟨ih1, ih2, ?_⟩
        rintro ⟨p, hp, hp2, hp3⟩
        rcases List.mem_cons.mp hp with hp | hp
        · rw [hp] at hp3; simp at hp3; exact absurd hp3 hab
        · exact ih3 ⟨p, hp, hp2, hp3⟩

/-- C4: when the abort flag is observed set at the per-tile check of some
successful tile, process returns -1, and by the time it returns no queued
write-back task is still pending: the completed tasks are exactly the
queued ones. -/
theorem abort_fails_and_drains (tiles : List (ℕ × Bool)) (abortAt : ℕ → Bool)
    (h : ∃ p ∈ tiles, p.2 = true ∧ abortAt p.1 = true) :
    (runLoop tiles abortAt).ret = -1 ∧
    (runLoop tiles abortAt).pending = [] ∧
    (runLoop tiles abortAt).completed = (runLoop tiles abortAt).queued := by
  obtain ⟨h1, h2, h3⟩ := runLoopAux_spec abortAt tiles [] [] [] rfl
  exact ⟨h3 h, h1, h2⟩

/-- Witness for C4 at a single-tile request whose abort flag reads true. -/
theorem abort_fails_and_drains_witness :
    (runLoop [(0, true)] fun _ => true).ret = -1 ∧
    (runLoop [(0, true)] fun _ => true).pending = [] ∧
    (runLoop [(0, true)] fun _ => true).completed
      = (runLoop [(0, true)] fun _ => true).queued :=
  abort_fails_and_drains [(0, true)] (fun _ => true)
    ⟨(0, true), List.mem_singleton_self _, rfl, rfl⟩

/-- When the tile count T is at most 99, tile k's write-back store is not
below its inference store. -/
theorem tileStores_le (T k : ℕ) (hT : 1 ≤ T) (h99 : T ≤ 99) :
    k * 99 / T + 1 ≤ (k + 1) * 99 / T := by
  have h1 : k * 99 / T + 1 = (k * 99 + T) / T := (Nat.add_div_right _ hT).symm
  rw [h1]
  exact Nat.div_le_div_right (by omega)

/-- Every inference store is at most 99. -/
theorem gpuStore_le (T k : ℕ) (hT : 1 ≤ T) (hk : k < T) :
    k * 99 / T + 1 ≤ 99 := by
  have h : k * 99 / T < 99 := by
    rw [Nat.div_lt_iff_lt_mul hT]
    omega
  omega

/-- Every write-back store is at most 99. -/
theorem cpuStore_le (T k : ℕ) (hT : 1 ≤ T) (hk : k + 1 ≤ T) :
    (k + 1) * 99 / T ≤ 99 := by
  have h2 : T * 99 / T = 99 := by
    rw [Nat.mul_comm]
    exact Nat.mul_div_cancel 99 hT
  calc (k + 1) * 99 / T ≤ T * 99 / T := Nat.div_le_div_right (by omega)
    _ = 99 := h2

/-- The in-order store prefix is a non-decreasing chain whose last value
is the n-th write-back store, for T between 1 and 99. -/
theorem storesUpTo_chain (T : ℕ) (hT : 1 ≤ T) (h99 : T ≤ 99) :
    ∀ n, List.Chain' (· ≤ ·) (storesUpTo T n) ∧
      (storesUpTo T n).getLast? = if n = 0 then none else some (n * 99 / T) := by
  intro n
  induction n with
  | zero => exact ⟨List.chain'_nil, rfl⟩
  | succ m ih =>
    obtain ⟨ihc, ihl⟩ := ih
    have hiter : storesUpTo T (m + 1)
        = storesUpTo T m ++ [m * 99 / T + 1, (m + 1) * 99 / T] := rfl
    constructor
    · rw [hiter, List.chain'_append]
      refine ⟨ihc, List.chain'_pair.mpr (tileStores_le T m hT h99), ?_⟩
      intro x hx y hy
      rw [ihl] at hx
      by_cases hm : m = 0
      · rw [if_pos hm] at hx
        simp at hx
      · rw [if_neg hm] at hx
        simp at hx hy
        omega
    · rw [hiter, List.getLast?_append_cons]
      simp

/-- The first stored value of a nonempty request prefix is exactly 1. -/
theorem storesUpTo_head (T : ℕ) : ∀ n, 1 ≤ n → (storesUpTo T n).head? = some 1 := by
  intro n
  induction n with
  | zero => intro h; exact absurd h (by omega)
  | succ m ih =>
    intro _
    by_cases hm : m = 0
    · subst hm
      have h1 : storesUpTo T 1 = [0 * 99 / T + 1, 1 * 99 / T] := rfl
      rw [h1]
      simp
    · have h1 : 1 ≤ m := by omega
      have hne : storesUpTo T m ≠ [] := by
        intro hnil
        have h := ih h1
        rw [hnil] at h
        simp at h
      have hiter : storesUpTo T (m + 1) = storesUpTo T m ++ tileStores T m := rfl
      rw [hiter, List.head?_append_of_ne_nil _ hne]
      exact ih h1

/-- Every store of the loop prefix is at most 99. -/
theorem storesUpTo_le99 (T : ℕ) (hT : 1 ≤ T) :
    ∀ n, n ≤ T → ∀ v ∈ storesUpTo T n, v ≤ 99 := by
  intro n
  induction n with
  | zero =>
    intro _ v hv
    simp [storesUpTo] at hv
  | succ m ih =>
    intro hn v hv
    have hiter : storesUpTo T (m + 1) = storesUpTo T m ++ tileStores T m := rfl
    rw [hiter, List.mem_append] at hv
    rcases hv with hv | hv
    · exact ih (by omega) v hv
    · simp [tileStores] at hv
      rcases hv with rfl | rfl
      · exact gpuStore_le T m hT (by omega)
      · exact cpuStore_le T m hT (by omega)

/-- One row of the tile loop appends one segment of per-tile stores. -/
theorem storesUpTo_add (T a : ℕ) : ∀ m, storesUpTo T (a + m)
    = storesUpTo T a ++ ((List.range m).flatMap fun xi => tileStores T (a + xi)) := by
  intro m
  induction m with
  | zero => simp
  | succ k ih =>
    have h1 : storesUpTo T (a + (k + 1))
        = storesUpTo T (a + k) ++ tileStores T (a + k) := rfl
    rw [h1, ih, List.range_succ]
    simp [List.append_assoc]

/-- The double loop over rows and columns enumerates the same stores as
the flat enumeration of n*xt tiles. -/
theorem loop_rows (T xt : ℕ) : ∀ n,
    ((List.range n).flatMap fun yi =>
      (List.range xt).flatMap fun xi => tileStores T (xi + yi * xt))
      = storesUpTo T (n * xt) := by
  intro n
  induction n with
  | zero => simp [storesUpTo]
  | succ k ih =>
    rw [List.range_succ]
    rw [show (k + 1) * xt = k * xt + xt by ring, storesUpTo_add T (k * xt) xt]
    simp only [List.flatMap_append, ih, List.flatMap_cons, List.flatMap_nil,
      List.append_nil]
    congr 1
    congr 1
    funext xi
    rw [Nat.add_comm]

/-- The double tile loop of one request produces the flat store list. -/
theorem loopStores_eq (xt yt : ℕ) :
    loopStores xt yt = storesUpTo (xt * yt) (xt * yt) := by
  unfold loopStores
  rw [loop_rows (xt * yt) xt yt, Nat.mul_comm yt xt]

/-- C2 (amended): under in-order completion of the write-back tasks and
for a request of at most 99 tiles, the stored progress values are
non-decreasing; for any tile grid the first store (after the first tile's
inference) is exactly 1, every store before the final one is at most 99,
and the last store is exactly 100. -/
theorem progress_trace_props (xt yt : ℕ) (hx : 1 ≤ xt) (hy : 1 ≤ yt)
    (h99 : xt * yt ≤ 99) :
    List.Pairwise (· ≤ ·) (progressTrace xt yt) ∧
    (progressTrace xt yt).head? = some 1 ∧
    ((progressTrace xt yt).dropLast.all fun v => decide (v ≤ 99)) = true ∧
    (progressTrace xt yt).getLast? = some 100 := by
  have hT : 1 ≤ xt * yt := Nat.mul_pos hx hy
  have htr : progressTrace xt yt = storesUpTo (xt * yt) (xt * yt) ++ [100] := by
    unfold progressTrace
    rw [loopStores_eq]
  obtain ⟨hc, hl⟩ := storesUpTo_chain (xt * yt) hT h99 (xt * yt)
  have hne : storesUpTo (xt * yt) (xt * yt) ≠ [] := by
    intro hnil
    have h := storesUpTo_head (xt * yt) (xt * yt) hT
    rw [hnil] at h
    simp at h
  refine ⟨?_, ?_, ?_, ?_⟩
  · apply List.chain'_iff_pairwise.mp
    rw [htr, List.chain'_append]
    refine ⟨hc, List.chain'_singleton _, ?_⟩
    intro x hxm y hym
    rw [hl, if_neg (by omega)] at hxm
    have h2 : (xt * yt) * 99 / (xt * yt) = 99 := by
      rw [Nat.mul_comm]
      exact Nat.mul_div_cancel 99 hT
    simp at hxm hym
    omega
  · rw [htr, List.head?_append_of_ne_nil _ hne]
    exact storesUpTo_head (xt * yt) (xt * yt) hT
  · rw [htr, List.all_eq_true]
    intro v hv
    have hd : (storesUpTo (xt * yt) (xt * yt) ++ [100]).dropLast
        = storesUpTo (xt * yt) (xt * yt) := by simp
    rw [hd] at hv
    rw [decide_eq_true_eq]
    exact storesUpTo_le99 (xt * yt) hT (xt * yt) le_rfl v hv
  · rw [htr, List.getLast?_append_cons]
    rfl

/-- Witness for the amended C2 at a 3x3-tile request. -/
theorem progress_trace_props_witness :
    List.Pairwise (· ≤ ·) (progressTrace 3 3) ∧
    (progressTrace 3 3).head? = some 1 ∧
    ((progressTrace 3 3).dropLast.all fun v => decide (v ≤ 99)) = true ∧
    (progressTrace 3 3).getLast? = some 100 :=
  progress_trace_props 3 3 (by norm_num) (by norm_num) (by norm_num)

set_option maxRecDepth 100000 in
/-- C2 counterexample: for a 10x10 tile grid (100 tiles) the first tile
stores 0*99/100 + 1 = 1 after inference and then 1*99/100 = 0 after its
write-back, so the sequence of stored values decreases even with in-order
task completion. -/
theorem progress_not_monotone_at_100_tiles :
    ¬ List.Pairwise (· ≤ ·) (progressTrace 10 10) := by decide

/-- C1 (code evaluated at the failing input): when the pre-scaled alpha
plane holds 100 everywhere (a uniformly semi-transparent input), every
alpha byte the write-back stores is 156 — the out-of-range cast of
100*255.0f = 25500 under the wraparound lowering — whereas the plane
value clamped to [0,255] is 100.  The alpha store multiplies the 0-255
plane by 255 again and has no clamp, so the written byte differs from the
clamped plane value. -/
theorem alpha_byte_diverges :
    (writeTile false jbAlpha).map TileWrite.a = [156, 156, 156, 156] ∧
    clampByte 100 = 100 ∧ (156 : ℕ) ≠ 100 := by
  refine ⟨?_, ?_, by decide⟩
  · have hpx : writePixelBytes false (1 / 2 : ℚ) (1 / 2) (1 / 2) (some 100)
        = (127, 127, 127, 156) := by
      unfold writePixelBytes clampByte ucharWrap
      norm_num
      decide
    simp only [writeTile]
    norm_num [jbAlpha, jbGray, List.range_succ, List.takeWhile, hpx,
      show (2 : ℤ).toNat = 2 from rfl]
  · unfold clampByte
    norm_num
    decide

/-- Every write a grayscale-flagged task performs has equal R, G and B
bytes, because the mean is computed once and broadcast. -/
theorem writeTile_gray_mem (jb : TileJob) (wr : TileWrite)
    (h : wr ∈ writeTile true jb) : wr.r = wr.g ∧ wr.g = wr.b := by
  simp only [writeTile, List.mem_flatMap, List.mem_map] at h
  obtain ⟨i, hi, j, hj, rfl⟩ := h
  simp [writePixelBytes]

/-- C3: when every input pixel has channel differences within 5 and the
grayscale check is enabled, the image is flagged grayscale (the colorful
count is zero, below the W*H/200 threshold), and every RGB byte triple
the write-back stores satisfies R = G = B exactly, for every model output
tile. -/
theorem grayscale_preserved (ps : List InPixel) (w h : ℕ) (jb : TileJob)
    (wr : TileWrite)
    (hpix : ∀ p ∈ ps, |p.r - p.g| ≤ 5 ∧ |p.r - p.b| ≤ 5)
    (hwr : wr ∈ writeTile (isGrayscale false ps w h) jb) :
    isGrayscale false ps w h = true ∧ wr.r = wr.g ∧ wr.g = wr.b := by
  have hcount : colorPixelCount ps = 0 := by
    unfold colorPixelCount
    rw [List.length_eq_zero, List.filter_eq_nil_iff]
    intro p hp
    obtain ⟨h1, h2⟩ := hpix p hp
    simp only [Bool.or_eq_true, decide_eq_true_eq, not_or]
    exact ⟨not_lt.mpr h1, not_lt.mpr h2⟩
  have hflag : isGrayscale false ps w h = true := by
    simp [isGrayscale, hcount]
  rw [hflag] at hwr
  exact ⟨hflag, writeTile_gray_mem jb wr hwr⟩

/-- Witness for C3 at a one-pixel pure-gray image and the concrete
write-back task of its single tile. -/
theorem grayscale_preserved_witness :
    isGrayscale false [⟨10, 10, 10⟩] 1 1 = true ∧
    (⟨0, 0, 127, 127, 127, 255⟩ : TileWrite).r
      = (⟨0, 0, 127, 127, 127, 255⟩ : TileWrite).g ∧
    (⟨0, 0, 127, 127, 127, 255⟩ : TileWrite).g
      = (⟨0, 0, 127, 127, 127, 255⟩ : TileWrite).b :=
  grayscale_preserved [⟨10, 10, 10⟩] 1 1 jbGray ⟨0, 0, 127, 127, 127, 255⟩
    (by
      intro p hp
      simp only [List.mem_singleton] at hp
      subst hp
      norm_num)
    (by
      have hflag : isGrayscale false [⟨10, 10, 10⟩] 1 1 = true := by
        norm_num [isGrayscale, colorPixelCount, List.filter]
      rw [hflag]
      have hpx : writePixelBytes true (1 / 2 : ℚ) (1 / 2) (1 / 2) none
          = (127, 127, 127, 255) := by
        unfold writePixelBytes clampByte ucharWrap grayCoeff
        norm_num
        decide
      simp only [writeTile]
      norm_num [jbGray, List.range_succ, List.takeWhile, hpx,
        show (2 : ℤ).toNat = 2 from rfl])

end MihonUpscale
